import Mathlib

/-!
Verification of the advanced-vector repository (src/advanced-vector/vector.h).

The container is modelled by a shallow embedding:

* A raw buffer is a list of slots, one per element of storage capacity.
  A slot holds some value when a live, constructed object of the element
  type occupies it, and none when the slot is raw, uninitialized memory.
  The capacity of a RawMemory is the length of its slot list (the C++
  class stores the capacity in a separate field that always equals the
  number of allocated slots).

* Machine pointers into the buffer are represented by slot indices.

* C++ std::move produces a moved-from object in the source location.
  The moved-from value is modelled by an explicit function mv from the
  element type to itself: moving a value a out of a slot leaves mv a in
  the slot.  For trivially copyable element types mv is the identity;
  for a type like std::string it maps every value to the empty string.
  Operations that relocate elements into a brand-new buffer and then
  immediately destroy every source slot - the reallocating branch of
  Emplace, and CreateCopy as used by Reserve - never read a slot after
  moving out of it, so for those the moved-from residue is irrelevant
  and they are modelled as plain value transfers.
-/

namespace AdvVector

/-! ## Slot-level primitives shared by the model -/

/-- Write a list of slot values into consecutive slots of dst starting at
index dp.  This is the common core of std uninitialized copies, moves and
assignments from a source range that is disjoint from the destination (in
the model the values to write are read off the source up front, which is
faithful whenever the raw loop never reads a location it has already
written). -/
def writeSeq : List (Option α) → Nat → List (Option α) → List (Option α)
  | dst, _, [] => dst
  | dst, dp, x :: xs => writeSeq (dst.set dp x) (dp + 1) xs

/-- Model of std::uninitialized_copy_n(src + sp, n, dst + dp) (and of
std::copy over the same disjoint ranges): the n slot values at positions
sp, ..., sp + n - 1 of src are written into dst at dp, ..., dp + n - 1. -/
def uninitializedCopyN (src : List (Option α)) (sp n : Nat)
    (dst : List (Option α)) (dp : Nat) : List (Option α) :=
  writeSeq dst dp ((src.drop sp).take n)

/-- Model of std::uninitialized_move_n(src + sp, n, dst + dp) into a fresh
buffer.  The destination receives the sources' values; every call site in
vector.h destroys all source slots immediately afterwards (Emplace runs
destroy_n on the whole old buffer, Reserve destroys the old elements after
swapping storage), and no call site reads a source slot after moving from
it, so the moved-from residue left in the source buffer is dropped. -/
def uninitializedMoveN (src : List (Option α)) (sp n : Nat)
    (dst : List (Option α)) (dp : Nat) : List (Option α) :=
  uninitializedCopyN src sp n dst dp

/-- Model of std::uninitialized_value_construct_n(dst + dp, n) where the
value-initialized element is d. -/
def uninitializedValueConstructN (dst : List (Option α)) (dp n : Nat) (d : α) :
    List (Option α) :=
  writeSeq dst dp (List.replicate n (some d))

/-- Model of std::destroy_n(b + i, n): slots i, ..., i + n - 1 become
uninitialized. -/
def destroyRange : List (Option α) → Nat → Nat → List (Option α)
  | b, _, 0 => b
  | b, i, n + 1 => destroyRange (b.set i none) (i + 1) n

/-- Model of std::move_backward(b + i, b + i + n, b + i + n + 1) acting
inside one buffer, with mv giving the moved-from value.  Assignments run
from the last slot down: slot i + k + 1 receives the value of slot i + k,
whose slot is left holding its moved-from image; a slot that serves both
as destination and as source is moved from before it is overwritten, so
every destination receives the value the source range held on entry. -/
def moveBackward (mv : α → α) : List (Option α) → Nat → Nat → List (Option α)
  | b, _, 0 => b
  | b, i, n + 1 =>
    moveBackward mv
      ((b.set (i + n + 1) (b.getD (i + n) none)).set (i + n)
        (Option.map mv (b.getD (i + n) none))) i n

/-- Model of std::move(b + i + 1, b + i + 1 + n, b + i) acting inside one
buffer, with mv giving the moved-from value.  Assignments run from the
first slot up: slot i + k receives the value of slot i + k + 1, whose slot
is left holding its moved-from image until it is itself overwritten. -/
def moveForward (mv : α → α) : List (Option α) → Nat → Nat → List (Option α)
  | b, _, 0 => b
  | b, i, n + 1 =>
    moveForward mv
      ((b.set i (b.getD (i + 1) none)).set (i + 1)
        (Option.map mv (b.getD (i + 1) none))) (i + 1) n

/-! ## Length and closed-form lemmas for the slot primitives -/

theorem writeSeq_length (xs : List (Option α)) :
    ∀ (dst : List (Option α)) (dp : Nat), (writeSeq dst dp xs).length = dst.length := by
  induction xs with
  | nil => intro dst dp; rfl
  | cons x xs ih => intro dst dp; rw [writeSeq, ih]; simp

theorem destroyRange_length :
    ∀ (n : Nat) (b : List (Option α)) (i : Nat), (destroyRange b i n).length = b.length := by
  intro n
  induction n with
  | zero => intro b i; rfl
  | succ n ih => intro b i; rw [destroyRange, ih]; simp

theorem moveBackward_length (mv : α → α) :
    ∀ (n : Nat) (b : List (Option α)) (i : Nat),
      (moveBackward mv b i n).length = b.length := by
  intro n
  induction n with
  | zero => intro b i; rfl
  | succ n ih => intro b i; rw [moveBackward, ih]; simp

theorem moveForward_length (mv : α → α) :
    ∀ (n : Nat) (b : List (Option α)) (i : Nat),
      (moveForward mv b i n).length = b.length := by
  intro n
  induction n with
  | zero => intro b i; rfl
  | succ n ih => intro b i; rw [moveForward, ih]; simp

theorem writeSeq_eq (xs : List (Option α)) :
    ∀ (dst : List (Option α)) (dp : Nat), dp + xs.length ≤ dst.length →
      writeSeq dst dp xs = dst.take dp ++ xs ++ dst.drop (dp + xs.length) := by
  induction xs with
  | nil =>
    intro dst dp h
    simp [writeSeq]
  | cons x xs ih =>
    intro dst dp h
    have hdp : dp < dst.length := by simp at h; omega
    have hlen : (dst.take dp).length = dp := by simp; omega
    have hset : dst.set dp x = dst.take dp ++ x :: dst.drop (dp + 1) :=
      List.set_eq_take_cons_drop x hdp
    have eA : (dst.set dp x).take (dp + 1) = dst.take dp ++ [x] := by
      rw [hset, List.take_append_eq_append_take, hlen]
      have t1 : (dst.take dp).take (dp + 1) = dst.take dp :=
        List.take_of_length_le (by rw [hlen]; omega)
      rw [t1, show dp + 1 - dp = 1 from by omega]
      simp
    have eB : (dst.set dp x).drop (dp + 1 + xs.length) =
        dst.drop (dp + (x :: xs).length) := by
      rw [hset, List.drop_append_eq_append_drop, hlen]
      have t2 : (dst.take dp).drop (dp + 1 + xs.length) = [] :=
        List.drop_eq_nil_of_le (by rw [hlen]; omega)
      rw [t2, show dp + 1 + xs.length - dp = xs.length + 1 from by omega,
        List.drop_succ_cons, List.drop_drop]
      have t3 : dp + 1 + xs.length = dp + (x :: xs).length := by simp; omega
      rw [t3]
      simp
    rw [writeSeq, ih _ (dp + 1) (by simp at h ⊢; omega), eA, eB]
    simp

theorem getD_set_self {β : Type u} (b : List β) (k : Nat) (x d : β)
    (h : k < b.length) : (b.set k x).getD k d = x := by
  simp [List.getD_eq_getElem?_getD, List.getElem?_set_self h]

theorem getD_set_ne {β : Type u} (b : List β) (j k : Nat) (x d : β)
    (h : j ≠ k) : (b.set k x).getD j d = b.getD j d := by
  simp [List.getD_eq_getElem?_getD, List.getElem?_set_ne (Ne.symm h)]

theorem getD_drop {β : Type u} (b : List β) (i j : Nat) (d : β) :
    (b.drop i).getD j d = b.getD (i + j) d := by
  simp [List.getD_eq_getElem?_getD, List.getElem?_drop]

theorem take_set_ge {β : Type u} (b : List β) (k m : Nat) (x : β)
    (h : m ≤ k) : (b.set k x).take m = b.take m := by
  rw [List.set_take, List.set_eq_of_length_le (by simp; omega)]

theorem drop_set_lt {β : Type u} (b : List β) (k m : Nat) (x : β)
    (h : k < m) : (b.set k x).drop m = b.drop m := by
  rw [List.drop_set, if_pos h]

theorem drop_set_self {β : Type u} (b : List β) (k : Nat) (x : β)
    (h : k < b.length) : (b.set k x).drop k = x :: b.drop (k + 1) := by
  rw [List.drop_set, if_neg (by omega), Nat.sub_self,
    List.drop_eq_getElem_cons h, List.set_cons_zero]

theorem take_getD_succ {β : Type u} (b : List β) (k : Nat) (d : β)
    (h : k < b.length) : b.take (k + 1) = b.take k ++ [b.getD k d] := by
  rw [List.take_succ, List.getElem?_eq_getElem h]
  simp [List.getD_eq_getElem?_getD, List.getElem?_eq_getElem h]

theorem take_set_succ {β : Type u} (b : List β) (k : Nat) (x : β)
    (h : k < b.length) : (b.set k x).take (k + 1) = b.take k ++ [x] := by
  rw [List.set_eq_take_cons_drop x h, List.take_append_eq_append_take]
  have hlen : (b.take k).length = k := by simp; omega
  rw [List.take_of_length_le (by rw [hlen]; omega), hlen,
    show k + 1 - k = 1 from by omega]
  simp

theorem seg_set_ge {β : Type u} (b : List β) (k i n : Nat) (x : β)
    (h : i + n ≤ k) : ((b.set k x).drop i).take n = (b.drop i).take n := by
  rw [List.drop_set, if_neg (by omega), take_set_ge _ _ _ _ (by omega)]

theorem seg_set_lt {β : Type u} (b : List β) (k i n : Nat) (x : β)
    (h : k < i) : ((b.set k x).drop i).take n = (b.drop i).take n := by
  rw [drop_set_lt _ _ _ _ h]

theorem destroyRange_eq_writeSeq :
    ∀ (n : Nat) (b : List (Option α)) (i : Nat),
      destroyRange b i n = writeSeq b i (List.replicate n none) := by
  intro n
  induction n with
  | zero => intro b i; rfl
  | succ n ih => intro b i; rw [destroyRange, ih, List.replicate_succ, writeSeq]

theorem destroyRange_eq (n : Nat) (b : List (Option α)) (i : Nat)
    (h : i + n ≤ b.length) :
    destroyRange b i n = b.take i ++ List.replicate n none ++ b.drop (i + n) := by
  rw [destroyRange_eq_writeSeq, writeSeq_eq _ _ _ (by simp; omega)]
  simp

theorem moveBackward_eq (mv : α → α) :
    ∀ (n : Nat) (b : List (Option α)) (i : Nat), i + n + 2 ≤ b.length →
      moveBackward mv b i (n + 1) =
        b.take i ++ Option.map mv (b.getD i none) ::
          ((b.drop i).take (n + 1) ++ b.drop (i + n + 2)) := by
  intro n
  induction n with
  | zero =>
    intro b i h
    have hi : i < b.length := by omega
    have hi1 : i + 1 < b.length := by omega
    simp only [moveBackward, Nat.add_zero]
    have hX : (b.set (i + 1) (b.getD i none)).set i
        (Option.map mv (b.getD i none)) =
        (b.set (i + 1) (b.getD i none)).take i ++
          Option.map mv (b.getD i none) ::
            (b.set (i + 1) (b.getD i none)).drop (i + 1) :=
      List.set_eq_take_cons_drop _ (by simp; omega)
    rw [hX, take_set_ge _ _ _ _ (by omega), drop_set_self _ _ _ hi1]
    have hcons : b.drop i = b.getD i none :: b.drop (i + 1) := by
      rw [List.drop_eq_getElem_cons hi, List.getD_eq_getElem?_getD,
        List.getElem?_eq_getElem hi]
      rfl
    have hdropi : (b.drop i).take 1 = [b.getD i none] := by
      rw [hcons, List.take_succ_cons, List.take_zero]
    rw [hdropi]
    simp
  | succ n ih =>
    intro b i h
    rw [moveBackward]
    rw [show i + (n + 1) + 1 = i + n + 2 from by omega,
      show i + (n + 1) = i + n + 1 from by omega]
    have hb' : ((b.set (i + n + 2) (b.getD (i + n + 1) none)).set (i + n + 1)
        (Option.map mv (b.getD (i + n + 1) none))).length = b.length := by simp
    rw [ih _ i (by rw [hb']; omega)]
    have e1 : ((b.set (i + n + 2) (b.getD (i + n + 1) none)).set (i + n + 1)
        (Option.map mv (b.getD (i + n + 1) none))).take i = b.take i := by
      rw [take_set_ge _ _ _ _ (by omega), take_set_ge _ _ _ _ (by omega)]
    have e2 : ((b.set (i + n + 2) (b.getD (i + n + 1) none)).set (i + n + 1)
        (Option.map mv (b.getD (i + n + 1) none))).getD i none = b.getD i none := by
      rw [getD_set_ne _ _ _ _ _ (by omega), getD_set_ne _ _ _ _ _ (by omega)]
    have e3 : (((b.set (i + n + 2) (b.getD (i + n + 1) none)).set (i + n + 1)
        (Option.map mv (b.getD (i + n + 1) none))).drop i).take (n + 1) =
        (b.drop i).take (n + 1) := by
      rw [seg_set_ge _ _ _ _ _ (by omega), seg_set_ge _ _ _ _ _ (by omega)]
    have e4 : ((b.set (i + n + 2) (b.getD (i + n + 1) none)).set (i + n + 1)
        (Option.map mv (b.getD (i + n + 1) none))).drop (i + n + 2) =
        b.getD (i + n + 1) none :: b.drop (i + n + 3) := by
      rw [drop_set_lt _ _ _ _ (by omega), drop_set_self _ _ _ (by omega),
        show i + n + 2 + 1 = i + n + 3 from by omega]
    rw [e1, e2, e3, e4]
    have e5 : (b.drop i).take (n + 1 + 1) =
        (b.drop i).take (n + 1) ++ [b.getD (i + n + 1) none] := by
      rw [take_getD_succ _ _ none (by simp; omega), getD_drop,
        show i + (n + 1) = i + n + 1 from by omega]
    rw [e5, show i + n + 1 + 2 = i + n + 3 from by omega]
    simp

theorem moveForward_eq (mv : α → α) :
    ∀ (n : Nat) (b : List (Option α)) (i : Nat), i + n + 2 ≤ b.length →
      moveForward mv b i (n + 1) =
        b.take i ++ ((b.drop (i + 1)).take (n + 1) ++
          Option.map mv (b.getD (i + n + 1) none) :: b.drop (i + n + 2)) := by
  intro n
  induction n with
  | zero =>
    intro b i h
    have hi : i < b.length := by omega
    have hi1 : i + 1 < b.length := by omega
    simp only [moveForward, Nat.add_zero]
    have hX : (b.set i (b.getD (i + 1) none)).set (i + 1)
        (Option.map mv (b.getD (i + 1) none)) =
        (b.set i (b.getD (i + 1) none)).take (i + 1) ++
          Option.map mv (b.getD (i + 1) none) ::
            (b.set i (b.getD (i + 1) none)).drop (i + 2) := by
      have := List.set_eq_take_cons_drop (Option.map mv (b.getD (i + 1) none))
        (show i + 1 < (b.set i (b.getD (i + 1) none)).length from by simp; omega)
      rw [this, show i + 1 + 1 = i + 2 from by omega]
    rw [hX, take_set_succ _ _ _ hi, drop_set_lt _ _ _ _ (by omega)]
    have hcons : b.drop (i + 1) = b.getD (i + 1) none :: b.drop (i + 2) := by
      rw [List.drop_eq_getElem_cons hi1, List.getD_eq_getElem?_getD,
        List.getElem?_eq_getElem hi1, show i + 1 + 1 = i + 2 from by omega]
      rfl
    have hdropi : (b.drop (i + 1)).take 1 = [b.getD (i + 1) none] := by
      rw [hcons, List.take_succ_cons, List.take_zero]
    rw [hdropi, show i + 0 + 1 = i + 1 from by omega,
      show i + 0 + 2 = i + 2 from by omega]
    simp
  | succ n ih =>
    intro b i h
    rw [moveForward]
    have hb' : ((b.set i (b.getD (i + 1) none)).set (i + 1)
        (Option.map mv (b.getD (i + 1) none))).length = b.length := by simp
    rw [ih _ (i + 1) (by rw [hb']; omega)]
    have e1 : ((b.set i (b.getD (i + 1) none)).set (i + 1)
        (Option.map mv (b.getD (i + 1) none))).take (i + 1) =
        b.take i ++ [b.getD (i + 1) none] := by
      rw [take_set_ge _ _ _ _ (by omega), take_set_succ _ _ _ (by omega)]
    have e2 : (((b.set i (b.getD (i + 1) none)).set (i + 1)
        (Option.map mv (b.getD (i + 1) none))).drop (i + 1 + 1)).take (n + 1) =
        (b.drop (i + 2)).take (n + 1) := by
      rw [seg_set_lt _ _ _ _ _ (by omega), seg_set_lt _ _ _ _ _ (by omega),
        show i + 1 + 1 = i + 2 from by omega]
    have e3 : ((b.set i (b.getD (i + 1) none)).set (i + 1)
        (Option.map mv (b.getD (i + 1) none))).getD (i + 1 + n + 1) none =
        b.getD (i + n + 2) none := by
      rw [getD_set_ne _ _ _ _ _ (by omega), getD_set_ne _ _ _ _ _ (by omega),
        show i + 1 + n + 1 = i + n + 2 from by omega]
    have e4 : ((b.set i (b.getD (i + 1) none)).set (i + 1)
        (Option.map mv (b.getD (i + 1) none))).drop (i + 1 + n + 2) =
        b.drop (i + n + 3) := by
      rw [drop_set_lt _ _ _ _ (by omega), drop_set_lt _ _ _ _ (by omega),
        show i + 1 + n + 2 = i + n + 3 from by omega]
    rw [e1, e2, e3, e4]
    have hlt : i + 1 < b.length := by omega
    have hg : b.getD (i + 1) none = b[i + 1] := by
      rw [List.getD_eq_getElem?_getD, List.getElem?_eq_getElem hlt]
      rfl
    have hcons : b.drop (i + 1) = b.getD (i + 1) none :: b.drop (i + 2) := by
      rw [List.drop_eq_getElem_cons hlt, hg, show i + 1 + 1 = i + 2 from by omega]
    have e5 : (b.drop (i + 1)).take (n + 1 + 1) =
        b.getD (i + 1) none :: (b.drop (i + 2)).take (n + 1) := by
      rw [hcons, List.take_succ_cons]
    rw [e5, show i + (n + 1) + 1 = i + n + 2 from by omega,
      show i + (n + 1) + 2 = i + n + 3 from by omega]
    simp

/-! ## RawMemory and Vector (slot-level model of vector.h) -/

/-- Model of RawMemory, the raw-storage buffer: a list of capacity slots.
The C++ class stores a pointer and a separate capacity field; in the slot
model the capacity is the length of the slot list, and the constructor
RawMemory(capacity) calls Allocate to obtain capacity uninitialized
slots.  A separate address-level model below covers the claims about the
null-pointer invariant and move transfer of RawMemory itself. -/
structure RawMemory (α : Type) where
  buffer_ : List (Option α)

/-- Model of RawMemory::Capacity. -/
def RawMemory.Capacity (m : RawMemory α) : Nat := m.buffer_.length

/-- Model of the constructor RawMemory(capacity): Allocate(capacity)
yields capacity raw slots, none of them holding a constructed object. -/
def RawMemory.ofCapacity (capacity : Nat) : RawMemory α :=
  ⟨List.replicate capacity none⟩

/-- Model of Vector: a RawMemory plus the logical element count size_. -/
structure Vector (α : Type) where
  data_ : RawMemory α
  size_ : Nat

/-- Model of Vector::Size. -/
def Vector.Size (v : Vector α) : Nat := v.size_

/-- Model of Vector::Capacity. -/
def Vector.Capacity (v : Vector α) : Nat := v.data_.Capacity

/-- The sequence of element values held by the live slots [0, size). -/
def Vector.live (v : Vector α) : List α :=
  (v.data_.buffer_.take v.size_).reduceOption

/-- The class invariant of Vector: size does not exceed capacity and
every slot below size holds a live element. -/
def Vector.WF (v : Vector α) : Prop :=
  v.size_ ≤ v.Capacity ∧ ∀ x ∈ v.data_.buffer_.take v.size_, x.isSome

instance (v : Vector α) [DecidableEq α] : Decidable v.WF := by
  unfold Vector.WF
  infer_instance

/-- Model of Vector::Emplace(pos, args...), vector.h lines 346-388.  The
constructed element is x; mv gives the moved-from value of the element
type.  Returns the new vector state and the index (it_element - begin)
of the returned iterator.  The branch structure follows the source: when
size equals capacity a fresh buffer of doubled capacity receives the new
element at index pos first, then the prefix [0,pos) and suffix
[pos,size) of the old buffer at offsets 0 and pos+1 (the old elements
are then destroyed with the old buffer, so the relocation is a value
transfer); otherwise, when size is nonzero, the last element is
move-constructed into slot size, move_backward(begin()+pos, end(),
end()+1) shifts slots, destroy_at clears slot pos and the new element is
constructed there. -/
def Vector.Emplace (mv : α → α) (v : Vector α) (pos : Nat) (x : α) :
    Vector α × Nat :=
  if v.size_ = v.Capacity then
    let data0 : List (Option α) :=
      List.replicate (if v.size_ = 0 then 1 else v.size_ * 2) none
    let data1 := data0.set pos (some x)
    let data2 := uninitializedMoveN v.data_.buffer_ 0 pos data1 0
    let data3 := uninitializedMoveN v.data_.buffer_ pos (v.size_ - pos) data2 (pos + 1)
    (⟨⟨data3⟩, v.size_ + 1⟩, pos)
  else
    if v.size_ ≠ 0 then
      let last := v.data_.buffer_.getD (v.size_ - 1) none
      let b1 := (v.data_.buffer_.set v.size_ last).set (v.size_ - 1) (Option.map mv last)
      let b2 := moveBackward mv b1 pos (v.size_ - pos)
      let b3 := b2.set pos none
      let b4 := b3.set pos (some x)
      (⟨⟨b4⟩, v.size_ + 1⟩, pos)
    else
      (⟨⟨v.data_.buffer_.set pos (some x)⟩, v.size_ + 1⟩, pos)

/-- Model of Vector::PopBack, vector.h lines 489-495: destroy the last
live element, if any, and decrement size. -/
def Vector.PopBack (v : Vector α) : Vector α :=
  if 0 < v.size_ then ⟨⟨v.data_.buffer_.set (v.size_ - 1) none⟩, v.size_ - 1⟩
  else v

/-- Model of Vector::Erase(pos), vector.h lines 392-399: move every
element after pos one slot toward the front, then PopBack; returns
begin() + shift, i.e. index pos. -/
def Vector.Erase (mv : α → α) (v : Vector α) (pos : Nat) : Vector α × Nat :=
  let b := moveForward mv v.data_.buffer_ pos (v.size_ - (pos + 1))
  (Vector.PopBack ⟨⟨b⟩, v.size_⟩, pos)

/-- Model of both Vector::Insert overloads, vector.h lines 404-415: each
forwards to Emplace with the value as the only constructor argument. -/
def Vector.Insert (mv : α → α) (v : Vector α) (pos : Nat) (x : α) :
    Vector α × Nat :=
  Vector.Emplace mv v pos x

/-- Model of Vector::EmplaceBack, vector.h lines 500-504: Emplace at
end(). -/
def Vector.EmplaceBack (mv : α → α) (v : Vector α) (x : α) : Vector α × Nat :=
  Vector.Emplace mv v v.size_ x

/-- Model of Vector::PushBack, vector.h lines 481-485: forwards to
EmplaceBack. -/
def Vector.PushBack (mv : α → α) (v : Vector α) (x : α) : Vector α :=
  (Vector.EmplaceBack mv v x).1

/-- Model of Vector::CreateCopy(capacity), vector.h lines 506-516: a new
RawMemory of the given capacity receives the live elements, by
uninitialized_move_n or uninitialized_copy_n depending on the element
type; both transfer the value of each live slot, and the only caller
(Reserve) destroys the old elements right after adopting the new buffer,
so the relocation is modelled as a value transfer. -/
def Vector.CreateCopy (v : Vector α) (capacity : Nat) : RawMemory α :=
  ⟨uninitializedMoveN v.data_.buffer_ 0 v.size_ (List.replicate capacity none) 0⟩

/-- Model of Vector::Reserve(capacity), vector.h lines 445-453: no-op
unless the requested capacity exceeds the current one, otherwise adopt
CreateCopy(capacity) and destroy the old elements with the old buffer. -/
def Vector.Reserve (v : Vector α) (capacity : Nat) : Vector α :=
  if capacity ≤ v.data_.Capacity then v
  else ⟨Vector.CreateCopy v capacity, v.size_⟩

/-- Model of Vector::Resize(count), vector.h lines 467-477, with d the
value-initialized element: grow by Reserve plus value-construction of
slots [size, count), or shrink by destroying slots [count, size). -/
def Vector.Resize (v : Vector α) (count : Nat) (d : α) : Vector α :=
  if v.size_ < count then
    let v1 := Vector.Reserve v count
    ⟨⟨uninitializedValueConstructN v1.data_.buffer_ v1.size_ (count - v1.size_) d⟩, count⟩
  else
    ⟨⟨destroyRange v.data_.buffer_ count (v.size_ - count)⟩, count⟩

/-- Model of the sized constructor Vector(size), vector.h lines 247-252,
with d the value-initialized element. -/
def Vector.ofSize (size : Nat) (d : α) : Vector α :=
  ⟨⟨uninitializedValueConstructN (List.replicate size none) 0 size d⟩, size⟩

/-- Model of the copy constructor Vector(const Vector and), vector.h
lines 258-263: storage of capacity other.size_ receives a copy of each
live element. -/
def Vector.copyCtor (other : Vector α) : Vector α :=
  ⟨⟨uninitializedCopyN other.data_.buffer_ 0 other.size_
      (List.replicate other.size_ none) 0⟩, other.size_⟩

/-- Model of Vector::Swap, vector.h lines 457-461: the two vectors
exchange storage and size; the result pair is (new this, new other). -/
def Vector.Swap (v other : Vector α) : Vector α × Vector α := (other, v)

/-- Model of the copy assignment operator, vector.h lines 267-287.
sameObject models the this != rhs address check.  When the source is
larger than the destination capacity a full copy is built and swapped
in; otherwise the overlapping prefix is copy-assigned in place (std::copy
writes the same values as the model's slot copy) and the excess is
destroyed or the missing tail copy-constructed. -/
def Vector.copyAssign (v rhs : Vector α) (sameObject : Bool) : Vector α :=
  if sameObject then v
  else if v.data_.Capacity < rhs.size_ then Vector.copyCtor rhs
  else if rhs.size_ < v.size_ then
    ⟨⟨destroyRange (uninitializedCopyN rhs.data_.buffer_ 0 rhs.size_ v.data_.buffer_ 0)
        rhs.size_ (v.size_ - rhs.size_)⟩, rhs.size_⟩
  else
    ⟨⟨uninitializedCopyN rhs.data_.buffer_ v.size_ (rhs.size_ - v.size_)
        (uninitializedCopyN rhs.data_.buffer_ 0 v.size_ v.data_.buffer_ 0) v.size_⟩,
      rhs.size_⟩

/-- Model of the move constructor Vector(Vector&&), vector.h lines
291-294: the new vector starts default (empty storage, size 0) and swaps
with the source; result is (constructed vector, source after the move). -/
def Vector.moveCtor (other : Vector α) : Vector α × Vector α :=
  (other, ⟨⟨[]⟩, 0⟩)

/-- Model of the move assignment operator, vector.h lines 298-304: if
this and rhs are distinct objects they swap storage and size, otherwise
nothing happens; result is (new this, new rhs). -/
def Vector.moveAssign (v rhs : Vector α) (sameObject : Bool) : Vector α × Vector α :=
  if sameObject then (v, rhs) else (rhs, v)

/-! ## Lemmas about live sequences -/

theorem reduceOption_length_of_all (l : List (Option α))
    (h : ∀ x ∈ l, x.isSome) : l.reduceOption.length = l.length := by
  induction l with
  | nil => rfl
  | cons x xs ih =>
    cases x with
    | none => exact absurd (h none (by simp)) (by simp)
    | some a =>
      rw [List.reduceOption_cons_of_some]
      simp only [List.length_cons]
      rw [ih (fun y hy => h y (by simp [hy]))]

theorem reduceOption_take_of_all (l : List (Option α))
    (h : ∀ x ∈ l, x.isSome) :
    ∀ k, (l.take k).reduceOption = l.reduceOption.take k := by
  induction l with
  | nil => intro k; simp
  | cons x xs ih =>
    intro k
    cases x with
    | none => exact absurd (h none (by simp)) (by simp)
    | some a =>
      cases k with
      | zero => simp
      | succ k =>
        rw [List.take_succ_cons, List.reduceOption_cons_of_some,
          List.reduceOption_cons_of_some, List.take_succ_cons,
          ih (fun y hy => h y (by simp [hy])) k]

theorem reduceOption_drop_of_all (l : List (Option α))
    (h : ∀ x ∈ l, x.isSome) :
    ∀ k, (l.drop k).reduceOption = l.reduceOption.drop k := by
  induction l with
  | nil => intro k; simp
  | cons x xs ih =>
    intro k
    cases x with
    | none => exact absurd (h none (by simp)) (by simp)
    | some a =>
      cases k with
      | zero => simp
      | succ k =>
        rw [List.drop_succ_cons, List.reduceOption_cons_of_some,
          List.drop_succ_cons, ih (fun y hy => h y (by simp [hy])) k]

theorem Vector.live_length (v : Vector α) (h : v.WF) :
    v.live.length = v.Size := by
  rw [Vector.live, reduceOption_length_of_all _ h.2]
  have h1 := h.1
  rw [Vector.Capacity, RawMemory.Capacity] at h1
  simp [Vector.Size]
  omega

/-! ## Capacity bookkeeping lemmas -/

theorem uninitializedCopyN_length (src : List (Option α)) (sp n : Nat)
    (dst : List (Option α)) (dp : Nat) :
    (uninitializedCopyN src sp n dst dp).length = dst.length := by
  rw [uninitializedCopyN, writeSeq_length]

theorem Emplace_capacity_full (mv : α → α) (v : Vector α) (pos : Nat) (x : α)
    (h : v.size_ = v.Capacity) :
    ((Vector.Emplace mv v pos x).1).Capacity =
      if v.size_ = 0 then 1 else v.size_ * 2 := by
  rw [Vector.Emplace, if_pos h]
  simp only [Vector.Capacity, RawMemory.Capacity, uninitializedMoveN]
  rw [uninitializedCopyN_length, uninitializedCopyN_length, List.length_set,
    List.length_replicate]

/-! ## Claim C6: doubling growth on capacity exhaustion -/

/-- C6: for every vector whose size equals its capacity, a successful
append or insertion (Emplace, Insert, PushBack, EmplaceBack) leaves the
new capacity equal to max 1 (2 * pre-call size): capacity 1 when the
vector was empty, twice the old size otherwise. -/
theorem claim_C6_growth_doubles (mv : α → α) (v : Vector α) (pos : Nat) (x : α)
    (h : v.Size = v.Capacity) :
    ((Vector.Emplace mv v pos x).1).Capacity = max 1 (2 * v.Size) ∧
    ((Vector.Insert mv v pos x).1).Capacity = max 1 (2 * v.Size) ∧
    (Vector.PushBack mv v x).Capacity = max 1 (2 * v.Size) ∧
    ((Vector.EmplaceBack mv v x).1).Capacity = max 1 (2 * v.Size) := by
  have hs : v.size_ = v.Capacity := h
  have he := Emplace_capacity_full mv v pos x hs
  have hb := Emplace_capacity_full mv v v.size_ x hs
  rw [Vector.Insert, Vector.PushBack, Vector.EmplaceBack, he, hb]
  rw [Vector.Size]
  refine ⟨?_, ?_, ?_, ?_⟩ <;> (split_ifs with h0 <;> omega)

/-- Witness for C6 at a concrete full vector of size 1. -/
theorem claim_C6_growth_doubles_witness :
    ((Vector.Emplace id (⟨⟨[some 5]⟩, 1⟩ : Vector Nat) 1 7).1).Capacity =
      max 1 (2 * (⟨⟨[some 5]⟩, 1⟩ : Vector Nat).Size) ∧
    ((Vector.Insert id (⟨⟨[some 5]⟩, 1⟩ : Vector Nat) 1 7).1).Capacity =
      max 1 (2 * (⟨⟨[some 5]⟩, 1⟩ : Vector Nat).Size) ∧
    (Vector.PushBack id (⟨⟨[some 5]⟩, 1⟩ : Vector Nat) 7).Capacity =
      max 1 (2 * (⟨⟨[some 5]⟩, 1⟩ : Vector Nat).Size) ∧
    ((Vector.EmplaceBack id (⟨⟨[some 5]⟩, 1⟩ : Vector Nat) 7).1).Capacity =
      max 1 (2 * (⟨⟨[some 5]⟩, 1⟩ : Vector Nat).Size) :=
  claim_C6_growth_doubles id (⟨⟨[some 5]⟩, 1⟩ : Vector Nat) 1 7 (by decide)

/-! ## Claim C7: Reserve -/

/-- C7: Reserve(c) is a no-op when c does not exceed the current
capacity; otherwise it succeeds with the capacity becoming exactly c
while the size and the sequence of element values are unchanged. -/
theorem claim_C7_reserve (v : Vector α) (c : Nat) :
    (c ≤ v.Capacity → v.Reserve c = v) ∧
    (v.Capacity < c → v.Size ≤ v.Capacity →
      (v.Reserve c).Capacity = c ∧ (v.Reserve c).Size = v.Size ∧
        (v.Reserve c).live = v.live) := by
  constructor
  · intro h
    rw [Vector.Reserve, if_pos (show c ≤ v.data_.Capacity from h)]
  · intro hlt hwf
    have hsz : v.size_ ≤ v.data_.buffer_.length := hwf
    have hcap : v.data_.buffer_.length < c := hlt
    rw [Vector.Reserve, if_neg (show ¬ c ≤ v.data_.Capacity from not_le.mpr hlt)]
    refine ⟨?_, rfl, ?_⟩
    · rw [Vector.Capacity, Vector.CreateCopy, RawMemory.Capacity,
        uninitializedMoveN, uninitializedCopyN_length, List.length_replicate]
    · have hseg : (v.data_.buffer_.drop 0).take v.size_ = v.data_.buffer_.take v.size_ := by
        rw [List.drop_zero]
      have hseglen : (v.data_.buffer_.take v.size_).length = v.size_ := by
        simp; omega
      simp only [Vector.live]
      rw [Vector.CreateCopy, uninitializedMoveN, uninitializedCopyN, hseg,
        writeSeq_eq _ _ _ (by rw [List.length_replicate]; omega)]
      rw [List.take_zero, List.nil_append, List.take_append_eq_append_take, hseglen,
        List.take_take, Nat.min_self, Nat.sub_self, List.take_zero, List.append_nil]

/-- Witness for C7 at a concrete vector, covering both branches. -/
theorem claim_C7_reserve_witness :
    ((⟨⟨[some 1, some 2]⟩, 2⟩ : Vector Nat).Reserve 2 = ⟨⟨[some 1, some 2]⟩, 2⟩) ∧
    (((⟨⟨[some 1, some 2]⟩, 2⟩ : Vector Nat).Reserve 5).Capacity = 5 ∧
      ((⟨⟨[some 1, some 2]⟩, 2⟩ : Vector Nat).Reserve 5).Size =
        (⟨⟨[some 1, some 2]⟩, 2⟩ : Vector Nat).Size ∧
      ((⟨⟨[some 1, some 2]⟩, 2⟩ : Vector Nat).Reserve 5).live =
        (⟨⟨[some 1, some 2]⟩, 2⟩ : Vector Nat).live) :=
  ⟨(claim_C7_reserve (⟨⟨[some 1, some 2]⟩, 2⟩ : Vector Nat) 2).1 (by decide),
    (claim_C7_reserve (⟨⟨[some 1, some 2]⟩, 2⟩ : Vector Nat) 5).2 (by decide) (by decide)⟩

/-! ## Claim C2: move construction and move assignment -/

/-- C2 counterexample: after B = move(A) by move assignment, with A of
size 1 and B of size 2, the source A is left with B's former state of
size 2, not with size 0 as the claim states (the operator is a swap). -/
theorem claim_C2_counterexample :
    ¬ ((Vector.moveAssign (⟨⟨[some 2, some 3]⟩, 2⟩ : Vector Nat)
        (⟨⟨[some 1]⟩, 1⟩ : Vector Nat) false).2.Size = 0) := by
  decide

/-- C2 amended: after B = move(A), B holds exactly A's pre-move state
(so B's elements equal A's pre-move elements in order); move
construction leaves A empty with size 0, while move assignment swaps, so
A receives B's pre-assignment state and ends with size 0 only when B was
empty. -/
theorem claim_C2_move_transfer (A B : Vector α) :
    (Vector.moveCtor A).1 = A ∧ (Vector.moveCtor A).2.Size = 0 ∧
    (Vector.moveAssign B A false).1 = A ∧ (Vector.moveAssign B A false).2 = B :=
  ⟨rfl, rfl, rfl, rfl⟩

/-! ## Claim C10: self-assignment -/

/-- C10: self-assignment, by copy assignment or by move assignment, is a
no-op: the guard comparing the two object addresses (sameObject) makes
the operator return with the vector unchanged; for move assignment the
result is unchanged whatever the guard evaluates to, since swapping a
vector with itself is the identity. -/
theorem claim_C10_self_assignment (v : Vector α) :
    Vector.copyAssign v v true = v ∧
    ∀ b, Vector.moveAssign v v b = (v, v) := by
  refine ⟨rfl, ?_⟩
  intro b
  cases b <;> rfl

/-! ## Address-level model of RawMemory (null-pointer invariant, moves) -/

/-- Address-level model of RawMemory: the pointer member buffer_ is none
for nullptr and some a for the address a of an allocation, and capacity_
is the separate capacity field of the class. -/
structure RawMemoryAddr where
  buffer_ : Option Nat
  capacity_ : Nat
deriving DecidableEq

/-- Model of RawMemory::Allocate(n), vector.h lines 232-235: the null
address when n is zero, otherwise the address a of a fresh allocation. -/
def RawMemoryAddr.Allocate (n : Nat) (a : Nat) : Option Nat :=
  if n ≠ 0 then some a else none

/-- Model of the constructor RawMemory(capacity), allocating at address
a: buffer_ = Allocate(capacity), capacity_ = capacity. -/
def RawMemoryAddr.ofCapacity (capacity : Nat) (a : Nat) : RawMemoryAddr :=
  ⟨RawMemoryAddr.Allocate capacity a, capacity⟩

/-- Model of RawMemory::Swap, vector.h lines 210-213: exchange pointer
and capacity; result is (new this, new other). -/
def RawMemoryAddr.Swap (m other : RawMemoryAddr) : RawMemoryAddr × RawMemoryAddr :=
  (⟨other.buffer_, other.capacity_⟩, ⟨m.buffer_, m.capacity_⟩)

/-- Model of the move constructor RawMemory(RawMemory&&), vector.h lines
165-170: copy pointer and capacity, null the source; result is
(constructed storage, source after the move). -/
def RawMemoryAddr.moveCtor (other : RawMemoryAddr) : RawMemoryAddr × RawMemoryAddr :=
  (⟨other.buffer_, other.capacity_⟩, ⟨none, 0⟩)

/-- Model of RawMemory::operator=(RawMemory&&), vector.h lines 172-180.
The statement buffer_.~RawMemory() names the class destructor on the raw
pointer member buffer_ (of type T pointer); it frees nothing and leaves
the pointer value untouched (as written it is not a valid
pseudo-destructor call for that member at all), so the modelled effect
of the body is: set capacity_ to 0, then Swap(rhs); result is (new this,
new rhs). -/
def RawMemoryAddr.moveAssign (m rhs : RawMemoryAddr) (sameObject : Bool) :
    RawMemoryAddr × RawMemoryAddr :=
  if sameObject then (m, rhs)
  else RawMemoryAddr.Swap ⟨m.buffer_, 0⟩ rhs

/-- The Raw Storage invariant stated by the spec: capacity is zero
exactly when the buffer address is null. -/
def RawMemoryAddr.Inv (m : RawMemoryAddr) : Prop :=
  m.capacity_ = 0 ↔ m.buffer_ = none

/-! ## Claim C5: Raw Storage invariant and move transfer -/

/-- C5 failing-input demonstration: move-assign b = move(a) where the
destination b was constructed with capacity 2 at address 7 and the
source a with capacity 1 at address 5.  The destination duly receives
the source's address and capacity, but the source is left holding the
destination's old non-null address 7 with capacity 0 - not the reset
empty state (null, 0) the claim describes - so the capacity-zero-iff-
null invariant is violated on the source. -/
theorem claim_C5_moveAssign_breaks_invariant :
    ((RawMemoryAddr.moveAssign (RawMemoryAddr.ofCapacity 2 7)
        (RawMemoryAddr.ofCapacity 1 5) false).1 = ⟨some 5, 1⟩) ∧
    ((RawMemoryAddr.moveAssign (RawMemoryAddr.ofCapacity 2 7)
        (RawMemoryAddr.ofCapacity 1 5) false).2 = ⟨some 7, 0⟩) ∧
    ¬ (RawMemoryAddr.moveAssign (RawMemoryAddr.ofCapacity 2 7)
        (RawMemoryAddr.ofCapacity 1 5) false).2.Inv := by
  refine ⟨rfl, rfl, ?_⟩
  intro hinv
  have : (some 7 : Option Nat) = none := hinv.mp rfl
  exact Option.noConfusion this

/-! ## Claim C1: Emplace order and value preservation, in-place path -/

/-- C1 failing-input demonstration: in-place Emplace (size 3, capacity
4) at index 0 on elements 1, 2, 3, for an element type whose moved-from
value is 0.  The code move-constructs the old last element into the new
last slot and then runs move_backward(begin(), end(), end() + 1), whose
source range still contains the already moved-from last element, so the
new last slot is overwritten with the moved-from value: the live
sequence becomes 9, 1, 2, 0 whereas the claim requires 9, 1, 2, 3 - the
untouched last element does not keep its value. -/
theorem claim_C1_inplace_emplace_corrupts_last :
    ((Vector.Emplace (fun _ => 0)
        (⟨⟨[some 1, some 2, some 3, none]⟩, 3⟩ : Vector Nat) 0 9).1.live
      = [9, 1, 2, 0]) ∧
    ¬ ((Vector.Emplace (fun _ => 0)
        (⟨⟨[some 1, some 2, some 3, none]⟩, 3⟩ : Vector Nat) 0 9).1.live
      = [9, 1, 2, 3]) := by
  decide

/-! ## Claim C8: Erase -/

theorem erase_buffer_take (mv : α → α) (v : Vector α) (pos : Nat)
    (hwf : v.WF) (hpos : pos < v.size_) :
    (moveForward mv v.data_.buffer_ pos (v.size_ - (pos + 1))).take (v.size_ - 1) =
      v.data_.buffer_.take pos ++
        (v.data_.buffer_.drop (pos + 1)).take (v.size_ - (pos + 1)) := by
  have hsz : v.size_ ≤ v.data_.buffer_.length := hwf.1
  rcases Nat.eq_zero_or_pos (v.size_ - (pos + 1)) with h0 | hpos2
  · rw [h0]
    simp only [moveForward, List.take_zero, List.append_nil]
    rw [show v.size_ - 1 = pos from by omega]
  · obtain ⟨m, hm⟩ : ∃ m, v.size_ - (pos + 1) = m + 1 :=
      ⟨v.size_ - (pos + 1) - 1, by omega⟩
    rw [hm, moveForward_eq mv m _ pos (by omega)]
    have hA : (v.data_.buffer_.take pos).length = pos := by simp; omega
    have hB : ((v.data_.buffer_.drop (pos + 1)).take (m + 1)).length = m + 1 := by
      simp; omega
    have t1 : (v.data_.buffer_.take pos).take (v.size_ - 1) =
        v.data_.buffer_.take pos := List.take_of_length_le (by rw [hA]; omega)
    have t2 : ((v.data_.buffer_.drop (pos + 1)).take (m + 1)).take (m + 1) =
        (v.data_.buffer_.drop (pos + 1)).take (m + 1) :=
      List.take_of_length_le (by rw [hB])
    rw [List.take_append_eq_append_take, hA, t1,
      show v.size_ - 1 - pos = m + 1 from by omega,
      List.take_append_eq_append_take, hB, t2, Nat.sub_self, List.take_zero,
      List.append_nil]

theorem live_take_aux (v : Vector α) (hwf : v.WF) (k : Nat) (hk : k ≤ v.size_) :
    ((v.data_.buffer_.take v.size_).reduceOption).take k =
      (v.data_.buffer_.take k).reduceOption := by
  rw [← reduceOption_take_of_all _ hwf.2 k, List.take_take, Nat.min_eq_left hk]

theorem live_drop_aux (v : Vector α) (hwf : v.WF) (k : Nat) :
    ((v.data_.buffer_.take v.size_).reduceOption).drop k =
      ((v.data_.buffer_.drop k).take (v.size_ - k)).reduceOption := by
  rw [← reduceOption_drop_of_all _ hwf.2 k, List.drop_take]

/-- C8: Erase(pos) for pos a valid element position removes the element
at index pos, shifts every element after it one slot toward the front in
order, decrements size by one, and returns position pos, which now holds
the element that followed the removed one, or is the end position if the
removed element was last. -/
theorem claim_C8_erase (mv : α → α) (v : Vector α) (pos : Nat) (d : α)
    (hwf : v.WF) (hpos : pos < v.Size) :
    ((Vector.Erase mv v pos).1).Size = v.Size - 1 ∧
    ((Vector.Erase mv v pos).1).live = v.live.take pos ++ v.live.drop (pos + 1) ∧
    (Vector.Erase mv v pos).2 = pos ∧
    (pos < v.Size - 1 →
      ((Vector.Erase mv v pos).1).live.getD pos d = v.live.getD (pos + 1) d) ∧
    (pos = v.Size - 1 → (Vector.Erase mv v pos).2 = ((Vector.Erase mv v pos).1).Size) := by
  have hsz : v.size_ ≤ v.data_.buffer_.length := hwf.1
  have hpos' : pos < v.size_ := hpos
  have hstep : Vector.Erase mv v pos =
      (⟨⟨(moveForward mv v.data_.buffer_ pos (v.size_ - (pos + 1))).set
          (v.size_ - 1) none⟩, v.size_ - 1⟩, pos) := by
    simp only [Vector.Erase, Vector.PopBack]
    rw [if_pos (show 0 < v.size_ from by omega)]
  have hlive : ((Vector.Erase mv v pos).1).live =
      v.live.take pos ++ v.live.drop (pos + 1) := by
    rw [hstep]
    simp only [Vector.live]
    rw [take_set_ge _ _ _ _ (le_refl _), erase_buffer_take mv v pos hwf hpos',
      List.reduceOption_append, live_take_aux v hwf pos (by omega),
      live_drop_aux v hwf (pos + 1)]
  have hlen_take : (v.live.take pos).length = pos := by
    simp [v.live_length hwf]
    omega
  refine ⟨by rw [hstep]; rfl, hlive, by rw [hstep], ?_, ?_⟩
  · intro hlt
    rw [hlive, List.getD_eq_getElem?_getD, List.getElem?_append, hlen_take,
      if_neg (by omega), Nat.sub_self, List.getElem?_drop, Nat.add_zero,
      List.getD_eq_getElem?_getD]
  · intro hlast
    rw [hstep]
    exact hlast

/-- Witness for C8: erase at index 0 of the four-element vector 1,9,2,3
(the spec's concrete scenario 3). -/
theorem claim_C8_erase_witness :
    ((Vector.Erase (fun _ => 0)
        (⟨⟨[some 1, some 9, some 2, some 3]⟩, 4⟩ : Vector Nat) 0).1).Size =
      (⟨⟨[some 1, some 9, some 2, some 3]⟩, 4⟩ : Vector Nat).Size - 1 ∧
    ((Vector.Erase (fun _ => 0)
        (⟨⟨[some 1, some 9, some 2, some 3]⟩, 4⟩ : Vector Nat) 0).1).live =
      (⟨⟨[some 1, some 9, some 2, some 3]⟩, 4⟩ : Vector Nat).live.take 0 ++
        (⟨⟨[some 1, some 9, some 2, some 3]⟩, 4⟩ : Vector Nat).live.drop (0 + 1) ∧
    (Vector.Erase (fun _ => 0)
        (⟨⟨[some 1, some 9, some 2, some 3]⟩, 4⟩ : Vector Nat) 0).2 = 0 ∧
    (0 < (⟨⟨[some 1, some 9, some 2, some 3]⟩, 4⟩ : Vector Nat).Size - 1 →
      ((Vector.Erase (fun _ => 0)
          (⟨⟨[some 1, some 9, some 2, some 3]⟩, 4⟩ : Vector Nat) 0).1).live.getD 0 7 =
        (⟨⟨[some 1, some 9, some 2, some 3]⟩, 4⟩ : Vector Nat).live.getD (0 + 1) 7) ∧
    (0 = (⟨⟨[some 1, some 9, some 2, some 3]⟩, 4⟩ : Vector Nat).Size - 1 →
      (Vector.Erase (fun _ => 0)
          (⟨⟨[some 1, some 9, some 2, some 3]⟩, 4⟩ : Vector Nat) 0).2 =
        ((Vector.Erase (fun _ => 0)
            (⟨⟨[some 1, some 9, some 2, some 3]⟩, 4⟩ : Vector Nat) 0).1).Size) :=
  claim_C8_erase (fun _ => 0) (⟨⟨[some 1, some 9, some 2, some 3]⟩, 4⟩ : Vector Nat) 0 7
    (by decide) (by decide)

/-! ## Claim C4: size/capacity invariant over reachable states -/

theorem Emplace_size_le (mv : α → α) (v : Vector α) (pos : Nat) (x : α)
    (h : v.size_ ≤ v.Capacity) :
    ((Vector.Emplace mv v pos x).1).size_ ≤ ((Vector.Emplace mv v pos x).1).Capacity := by
  have hc : v.Capacity = v.data_.buffer_.length := rfl
  rw [hc] at h
  simp only [Vector.Emplace, Vector.Capacity, RawMemory.Capacity,
    uninitializedMoveN, uninitializedCopyN]
  split_ifs <;>
    simp only [writeSeq_length, moveBackward_length, List.length_set,
      List.length_replicate] <;>
    omega

theorem Emplace_capacity_mono (mv : α → α) (v : Vector α) (pos : Nat) (x : α) :
    v.Capacity ≤ ((Vector.Emplace mv v pos x).1).Capacity := by
  simp only [Vector.Emplace, Vector.Capacity, RawMemory.Capacity,
    uninitializedMoveN, uninitializedCopyN]
  split_ifs <;>
    simp only [writeSeq_length, moveBackward_length, List.length_set,
      List.length_replicate] <;>
    omega

theorem Reserve_capacity_mono (v : Vector α) (c : Nat) :
    v.Capacity ≤ (v.Reserve c).Capacity := by
  simp only [Vector.Reserve, Vector.CreateCopy, Vector.Capacity, RawMemory.Capacity,
    uninitializedMoveN, uninitializedCopyN]
  split_ifs with h1
  · exact le_refl _
  · simp only [writeSeq_length, List.length_replicate]
    omega

theorem Reserve_capacity_ge (v : Vector α) (c : Nat) :
    c ≤ (v.Reserve c).Capacity := by
  simp only [Vector.Reserve, Vector.CreateCopy, Vector.Capacity, RawMemory.Capacity,
    uninitializedMoveN, uninitializedCopyN]
  split_ifs with h1
  · exact h1
  · simp only [writeSeq_length, List.length_replicate]
    exact le_refl _

theorem Reserve_size_eq (v : Vector α) (c : Nat) :
    (v.Reserve c).size_ = v.size_ := by
  rw [Vector.Reserve]
  split_ifs with h1 <;> rfl

theorem PopBack_capacity_eq (v : Vector α) :
    (Vector.PopBack v).Capacity = v.Capacity := by
  rw [Vector.PopBack]
  split_ifs with h1
  · simp only [Vector.Capacity, RawMemory.Capacity, List.length_set]
  · rfl

theorem Erase_capacity_eq (mv : α → α) (v : Vector α) (pos : Nat) :
    ((Vector.Erase mv v pos).1).Capacity = v.Capacity := by
  rw [Vector.Erase]
  simp only []
  rw [PopBack_capacity_eq]
  simp only [Vector.Capacity, RawMemory.Capacity, moveForward_length]

theorem Resize_capacity_mono (v : Vector α) (c : Nat) (d : α) :
    v.Capacity ≤ (Vector.Resize v c d).Capacity := by
  simp only [Vector.Resize, uninitializedValueConstructN]
  split_ifs with h1
  · simp only [Vector.Capacity, RawMemory.Capacity, writeSeq_length]
    exact Reserve_capacity_mono v c
  · simp only [Vector.Capacity, RawMemory.Capacity, destroyRange_length]
    exact le_refl _

theorem copyCtor_size_capacity (other : Vector α) :
    (Vector.copyCtor other).size_ = other.size_ ∧
      (Vector.copyCtor other).Capacity = other.size_ := by
  refine ⟨rfl, ?_⟩
  simp only [Vector.copyCtor, Vector.Capacity, RawMemory.Capacity, uninitializedCopyN,
    writeSeq_length, List.length_replicate]

theorem copyAssign_size_le (v rhs : Vector α) (b : Bool)
    (h : v.size_ ≤ v.Capacity) :
    (Vector.copyAssign v rhs b).size_ ≤ (Vector.copyAssign v rhs b).Capacity := by
  have hc : v.Capacity = v.data_.buffer_.length := rfl
  rw [hc] at h
  simp only [Vector.copyAssign, Vector.Capacity, RawMemory.Capacity,
    uninitializedCopyN]
  split_ifs with h1 h2 h3
  · exact h
  · rw [show (Vector.copyCtor rhs).size_ = rhs.size_ from rfl]
    have := (copyCtor_size_capacity rhs).2
    simp only [Vector.Capacity, RawMemory.Capacity] at this
    omega
  · simp only [destroyRange_length, writeSeq_length]
    omega
  · simp only [writeSeq_length]
    omega

theorem copyAssign_capacity_mono (v rhs : Vector α) (b : Bool) :
    v.Capacity ≤ (Vector.copyAssign v rhs b).Capacity := by
  simp only [Vector.copyAssign, Vector.Capacity, RawMemory.Capacity,
    uninitializedCopyN]
  split_ifs with h1 h2 h3
  · exact le_refl _
  · have := (copyCtor_size_capacity rhs).2
    simp only [Vector.Capacity, RawMemory.Capacity] at this
    omega
  · simp only [destroyRange_length, writeSeq_length]
    omega
  · simp only [writeSeq_length]
    omega

theorem ofSize_size_le (n : Nat) (d : α) :
    (Vector.ofSize n d).size_ ≤ (Vector.ofSize n d).Capacity := by
  simp only [Vector.ofSize, uninitializedValueConstructN, Vector.Capacity,
    RawMemory.Capacity, writeSeq_length, List.length_replicate]
  exact le_refl _

theorem copyCtor_size_le (other : Vector α) :
    (Vector.copyCtor other).size_ ≤ (Vector.copyCtor other).Capacity := by
  rw [(copyCtor_size_capacity other).2]
  exact le_refl _

theorem PopBack_size_le (v : Vector α) (h : v.size_ ≤ v.Capacity) :
    (Vector.PopBack v).size_ ≤ (Vector.PopBack v).Capacity := by
  have hc : v.Capacity = v.data_.buffer_.length := rfl
  rw [hc] at h
  rw [Vector.PopBack]
  split_ifs with h1
  · simp only [Vector.Capacity, RawMemory.Capacity, List.length_set]
    omega
  · exact h

theorem Erase_size_le (mv : α → α) (v : Vector α) (pos : Nat)
    (h : v.size_ ≤ v.Capacity) :
    ((Vector.Erase mv v pos).1).size_ ≤ ((Vector.Erase mv v pos).1).Capacity := by
  have hc : v.Capacity = v.data_.buffer_.length := rfl
  rw [hc] at h
  simp only [Vector.Erase, Vector.PopBack, Vector.Capacity, RawMemory.Capacity]
  split_ifs with h1 <;>
    simp only [List.length_set, moveForward_length] <;> omega

theorem Reserve_size_le (v : Vector α) (c : Nat) (h : v.size_ ≤ v.Capacity) :
    (v.Reserve c).size_ ≤ (v.Reserve c).Capacity := by
  rw [Reserve_size_eq v c]
  exact le_trans h (Reserve_capacity_mono v c)

theorem Resize_size_le (v : Vector α) (c : Nat) (d : α)
    (h : v.size_ ≤ v.Capacity) :
    (Vector.Resize v c d).size_ ≤ (Vector.Resize v c d).Capacity := by
  simp only [Vector.Resize, uninitializedValueConstructN]
  split_ifs with h1
  · simp only [Vector.Capacity, RawMemory.Capacity, writeSeq_length]
    exact Reserve_capacity_ge v c
  · simp only [Vector.Capacity, RawMemory.Capacity, destroyRange_length]
    have hc : v.Capacity = v.data_.buffer_.length := rfl
    rw [hc] at h
    omega

/-- The states of Vector reachable by any sequence of its public
operations: the constructors, copy and move assignment, Swap, and the
mutating member functions.  Positional operations carry the precondition
asserted by the source (pos within the valid range). -/
inductive Reachable : Vector α → Prop where
  | defaultCtor : Reachable ⟨⟨[]⟩, 0⟩
  | sized (n : Nat) (d : α) : Reachable (Vector.ofSize n d)
  | copy {v : Vector α} : Reachable v → Reachable (Vector.copyCtor v)
  | assign {v rhs : Vector α} (b : Bool) : Reachable v → Reachable rhs →
      Reachable (Vector.copyAssign v rhs b)
  | moveCtorFst {v : Vector α} : Reachable v → Reachable (Vector.moveCtor v).1
  | moveCtorSnd {v : Vector α} : Reachable v → Reachable (Vector.moveCtor v).2
  | moveAssignFst {v rhs : Vector α} (b : Bool) : Reachable v → Reachable rhs →
      Reachable (Vector.moveAssign v rhs b).1
  | moveAssignSnd {v rhs : Vector α} (b : Bool) : Reachable v → Reachable rhs →
      Reachable (Vector.moveAssign v rhs b).2
  | swapFst {v w : Vector α} : Reachable v → Reachable w →
      Reachable (Vector.Swap v w).1
  | swapSnd {v w : Vector α} : Reachable v → Reachable w →
      Reachable (Vector.Swap v w).2
  | emplace {v : Vector α} (mv : α → α) (pos : Nat) (x : α) : Reachable v →
      pos ≤ v.size_ → Reachable (Vector.Emplace mv v pos x).1
  | insert {v : Vector α} (mv : α → α) (pos : Nat) (x : α) : Reachable v →
      pos ≤ v.size_ → Reachable (Vector.Insert mv v pos x).1
  | pushBack {v : Vector α} (mv : α → α) (x : α) : Reachable v →
      Reachable (Vector.PushBack mv v x)
  | emplaceBack {v : Vector α} (mv : α → α) (x : α) : Reachable v →
      Reachable (Vector.EmplaceBack mv v x).1
  | popBack {v : Vector α} : Reachable v → Reachable (Vector.PopBack v)
  | erase {v : Vector α} (mv : α → α) (pos : Nat) : Reachable v →
      pos < v.size_ → Reachable (Vector.Erase mv v pos).1
  | reserve {v : Vector α} (c : Nat) : Reachable v → Reachable (v.Reserve c)
  | resize {v : Vector α} (c : Nat) (d : α) : Reachable v →
      Reachable (Vector.Resize v c d)

/-- C4: in every state reachable by any sequence of public operations,
size is at most capacity (0 is a lower bound by the type), and no
operation other than move, swap or destruction decreases the capacity:
Emplace, Insert, PushBack, EmplaceBack, PopBack, Erase, Reserve, Resize
and copy assignment all leave the capacity at least as large as it was
before the call. -/
theorem claim_C4_invariant :
    (∀ v : Vector α, Reachable v → v.Size ≤ v.Capacity) ∧
    (∀ (mv : α → α) (v : Vector α) (pos : Nat) (x : α),
      v.Capacity ≤ ((Vector.Emplace mv v pos x).1).Capacity ∧
      v.Capacity ≤ ((Vector.Insert mv v pos x).1).Capacity) ∧
    (∀ (mv : α → α) (v : Vector α) (x : α),
      v.Capacity ≤ (Vector.PushBack mv v x).Capacity ∧
      v.Capacity ≤ ((Vector.EmplaceBack mv v x).1).Capacity) ∧
    (∀ v : Vector α, v.Capacity ≤ (Vector.PopBack v).Capacity) ∧
    (∀ (mv : α → α) (v : Vector α) (pos : Nat),
      v.Capacity ≤ ((Vector.Erase mv v pos).1).Capacity) ∧
    (∀ (v : Vector α) (c : Nat), v.Capacity ≤ (v.Reserve c).Capacity) ∧
    (∀ (v : Vector α) (c : Nat) (d : α),
      v.Capacity ≤ (Vector.Resize v c d).Capacity) ∧
    (∀ (v rhs : Vector α) (b : Bool),
      v.Capacity ≤ (Vector.copyAssign v rhs b).Capacity) := by
  refine ⟨?_, ?_, ?_, ?_, ?_, ?_, ?_, ?_⟩
  · intro v hv
    induction hv with
    | defaultCtor => exact le_refl _
    | sized n d => exact ofSize_size_le n d
    | copy hr ih => exact copyCtor_size_le _
    | assign b hr hrhs ih ihrhs => exact copyAssign_size_le _ _ b ih
    | moveCtorFst hr ih => exact ih
    | moveCtorSnd hr ih => exact le_refl _
    | moveAssignFst b hr hrhs ih ihrhs => cases b
                                          · exact ihrhs
                                          · exact ih
    | moveAssignSnd b hr hrhs ih ihrhs => cases b
                                          · exact ih
                                          · exact ihrhs
    | swapFst hr hw ih ihw => exact ihw
    | swapSnd hr hw ih ihw => exact ih
    | emplace mv pos x hr hpos ih => exact Emplace_size_le mv _ pos x ih
    | insert mv pos x hr hpos ih => exact Emplace_size_le mv _ pos x ih
    | pushBack mv x hr ih => exact Emplace_size_le mv _ _ x ih
    | emplaceBack mv x hr ih => exact Emplace_size_le mv _ _ x ih
    | popBack hr ih => exact PopBack_size_le _ ih
    | erase mv pos hr hpos ih => exact Erase_size_le mv _ pos ih
    | reserve c hr ih => exact Reserve_size_le _ c ih
    | resize c d hr ih => exact Resize_size_le _ c d ih
  · intro mv v pos x
    exact ⟨Emplace_capacity_mono mv v pos x, Emplace_capacity_mono mv v pos x⟩
  · intro mv v x
    exact ⟨Emplace_capacity_mono mv v v.size_ x, Emplace_capacity_mono mv v v.size_ x⟩
  · intro v
    exact le_of_eq (PopBack_capacity_eq v).symm
  · intro mv v pos
    exact le_of_eq (Erase_capacity_eq mv v pos).symm
  · intro v c
    exact Reserve_capacity_mono v c
  · intro v c d
    exact Resize_capacity_mono v c d
  · intro v rhs b
    exact copyAssign_capacity_mono v rhs b

/-- Witness for C4 at a concrete reachable state: a vector built by two
pushes, giving size 2 and capacity 2. -/
theorem claim_C4_invariant_witness :
    (Vector.PushBack id (Vector.PushBack id (⟨⟨[]⟩, 0⟩ : Vector Nat) 1) 2).Size ≤
      (Vector.PushBack id (Vector.PushBack id (⟨⟨[]⟩, 0⟩ : Vector Nat) 1) 2).Capacity :=
  (claim_C4_invariant).1 _
    (Reachable.pushBack id 2 (Reachable.pushBack id 1 Reachable.defaultCtor))

/-! ## Claim C3: fallible model (element constructors that may throw) -/

/-- Attempt the sequence of element copy-constructions performed by one
uninitialized_copy_n call: the construction numbered k (counting all
construction events of the enclosing operation) succeeds exactly when
f k is true.  On success the copied slot values are returned; on
failure uninitialized_copy_n destroys the elements it had constructed
before rethrowing, so nothing of the partial copy survives. -/
def constructSeqE (f : Nat → Bool) : Nat → List (Option α) → Except Unit (List (Option α))
  | _, [] => .ok []
  | k, x :: xs =>
    if f k then (constructSeqE f (k + 1) xs).map (fun ys => x :: ys)
    else .error ()

/-- Model of CreateCopy for an element type whose copy constructor may
throw (the instantiation of vector.h lines 506-516 that selects
uninitialized_copy_n); construction events are numbered from 0.  On
failure the local RawMemory frees its allocation and nothing else was
touched. -/
def Vector.CreateCopyE (f : Nat → Bool) (v : Vector α) (capacity : Nat) :
    Except Unit (RawMemory α) :=
  match constructSeqE f 0 (v.data_.buffer_.take v.size_) with
  | .error _ => .error ()
  | .ok xs => .ok ⟨writeSeq (List.replicate capacity none) 0 xs⟩

/-- Model of Reserve (vector.h lines 445-453) for the copy-selected
instantiation.  Every statement executed before a throw inside
CreateCopy touches only the local buffer, so the vector state carried
out by the error is the entry state. -/
def Vector.ReserveE (f : Nat → Bool) (v : Vector α) (capacity : Nat) :
    Except (Vector α) (Vector α) :=
  if capacity ≤ v.data_.Capacity then .ok v
  else
    match Vector.CreateCopyE f v capacity with
    | .error _ => .error v
    | .ok data => .ok ⟨data, v.size_⟩

/-- Model of Emplace (vector.h lines 346-388) for an element type whose
constructors may throw, with construction events numbered in source
order: in the reallocating branch the forwarded-args construction of
the new element is event 0, then the copies of the prefix before pos,
then the copies of the suffix from pos.  The modelled instantiation
relocates by copying (a type with a throwing copy constructor and no
nothrow move construction; the in-place shift's move assignments are
modelled as non-throwing, which is compatible since the branch choice
looks at move construction).  In the reallocating branch every write
before a throw goes to the local buffer: on a copy failure
uninitialized_copy_n destroys its partial work, the catch destroys the
new element, the local RawMemory frees its allocation and the error
carries the untouched entry state.  In the in-place branch a throw from
the new element's construction happens after destroy_at has already
cleared slot pos, and the error carries that changed state (the
source's weaker guarantee). -/
def Vector.EmplaceE (f : Nat → Bool) (mv : α → α) (v : Vector α) (pos : Nat) (x : α) :
    Except (Vector α) (Vector α × Nat) :=
  if v.size_ = v.Capacity then
    if f 0 = false then .error v
    else
      match constructSeqE f 1 (v.data_.buffer_.take pos) with
      | .error _ => .error v
      | .ok pre =>
        match constructSeqE f (1 + pos) ((v.data_.buffer_.drop pos).take (v.size_ - pos)) with
        | .error _ => .error v
        | .ok suf =>
          let data0 : List (Option α) :=
            List.replicate (if v.size_ = 0 then 1 else v.size_ * 2) none
          let data1 := data0.set pos (some x)
          let data2 := writeSeq data1 0 pre
          let data3 := writeSeq data2 (pos + 1) suf
          .ok (⟨⟨data3⟩, v.size_ + 1⟩, pos)
  else
    if v.size_ ≠ 0 then
      let last := v.data_.buffer_.getD (v.size_ - 1) none
      let b1 := (v.data_.buffer_.set v.size_ last).set (v.size_ - 1) (Option.map mv last)
      let b2 := moveBackward mv b1 pos (v.size_ - pos)
      let b3 := b2.set pos none
      if f 0 = false then .error ⟨⟨b3⟩, v.size_⟩
      else .ok (⟨⟨b3.set pos (some x)⟩, v.size_ + 1⟩, pos)
    else
      if f 0 = false then .error v
      else .ok (⟨⟨v.data_.buffer_.set pos (some x)⟩, v.size_ + 1⟩, pos)

/-- Model of EmplaceBack in the fallible setting: Emplace at end(). -/
def Vector.EmplaceBackE (f : Nat → Bool) (mv : α → α) (v : Vector α) (x : α) :
    Except (Vector α) (Vector α × Nat) :=
  Vector.EmplaceE f mv v v.size_ x

/-- Model of PushBack in the fallible setting: forwards to EmplaceBack. -/
def Vector.PushBackE (f : Nat → Bool) (mv : α → α) (v : Vector α) (x : α) :
    Except (Vector α) (Vector α) :=
  (Vector.EmplaceBackE f mv v x).map (fun r => r.1)

theorem EmplaceE_full_error (f : Nat → Bool) (mv : α → α) (v w : Vector α)
    (pos : Nat) (x : α) (hfull : v.size_ = v.Capacity)
    (herr : Vector.EmplaceE f mv v pos x = .error w) : w = v := by
  rw [Vector.EmplaceE, if_pos hfull] at herr
  split at herr
  · simp only [Except.error.injEq] at herr
    exact herr.symm
  · split at herr
    · simp only [Except.error.injEq] at herr
      exact herr.symm
    · split at herr
      · simp only [Except.error.injEq] at herr
        exact herr.symm
      · exact Except.noConfusion herr

theorem ReserveE_error (f : Nat → Bool) (v w : Vector α) (c : Nat)
    (herr : Vector.ReserveE f v c = .error w) : w = v := by
  rw [Vector.ReserveE] at herr
  split at herr
  · exact Except.noConfusion herr
  · split at herr
    · simp only [Except.error.injEq] at herr
      exact herr.symm
    · exact Except.noConfusion herr

/-- C3: strong exception guarantee on growth.  If an element constructor
throws during a reallocation triggered by Reserve, or by Emplace or
PushBack called at full capacity, then after the exception propagates
the vector's size, capacity and sequence of element values are all
unchanged. -/
theorem claim_C3_strong_guarantee (f : Nat → Bool) (mv : α → α) (v w : Vector α)
    (c pos : Nat) (x : α) :
    (Vector.ReserveE f v c = .error w →
      w.Size = v.Size ∧ w.Capacity = v.Capacity ∧ w.live = v.live) ∧
    (v.Size = v.Capacity → Vector.EmplaceE f mv v pos x = .error w →
      w.Size = v.Size ∧ w.Capacity = v.Capacity ∧ w.live = v.live) ∧
    (v.Size = v.Capacity → Vector.PushBackE f mv v x = .error w →
      w.Size = v.Size ∧ w.Capacity = v.Capacity ∧ w.live = v.live) := by
  refine ⟨?_, ?_, ?_⟩
  · intro herr
    rw [ReserveE_error f v w c herr]
    exact ⟨rfl, rfl, rfl⟩
  · intro hfull herr
    rw [EmplaceE_full_error f mv v w pos x hfull herr]
    exact ⟨rfl, rfl, rfl⟩
  · intro hfull herr
    rw [Vector.PushBackE, Vector.EmplaceBackE] at herr
    rcases hE : Vector.EmplaceE f mv v v.size_ x with e | r
    · rw [hE] at herr
      simp only [Except.map, Except.error.injEq] at herr
      rw [← herr, EmplaceE_full_error f mv v e v.size_ x hfull hE]
      exact ⟨rfl, rfl, rfl⟩
    · rw [hE] at herr
      exact Except.noConfusion herr

/-- Witness for C3: a full vector of size 1 with an oracle that fails
every construction; all three operations propagate the error with the
state unchanged. -/
theorem claim_C3_strong_guarantee_witness :
    ((⟨⟨[some 1]⟩, 1⟩ : Vector Nat).Size = (⟨⟨[some 1]⟩, 1⟩ : Vector Nat).Size ∧
      (⟨⟨[some 1]⟩, 1⟩ : Vector Nat).Capacity = (⟨⟨[some 1]⟩, 1⟩ : Vector Nat).Capacity ∧
      (⟨⟨[some 1]⟩, 1⟩ : Vector Nat).live = (⟨⟨[some 1]⟩, 1⟩ : Vector Nat).live) ∧
    ((⟨⟨[some 1]⟩, 1⟩ : Vector Nat).Size = (⟨⟨[some 1]⟩, 1⟩ : Vector Nat).Size ∧
      (⟨⟨[some 1]⟩, 1⟩ : Vector Nat).Capacity = (⟨⟨[some 1]⟩, 1⟩ : Vector Nat).Capacity ∧
      (⟨⟨[some 1]⟩, 1⟩ : Vector Nat).live = (⟨⟨[some 1]⟩, 1⟩ : Vector Nat).live) ∧
    ((⟨⟨[some 1]⟩, 1⟩ : Vector Nat).Size = (⟨⟨[some 1]⟩, 1⟩ : Vector Nat).Size ∧
      (⟨⟨[some 1]⟩, 1⟩ : Vector Nat).Capacity = (⟨⟨[some 1]⟩, 1⟩ : Vector Nat).Capacity ∧
      (⟨⟨[some 1]⟩, 1⟩ : Vector Nat).live = (⟨⟨[some 1]⟩, 1⟩ : Vector Nat).live) :=
  ⟨(claim_C3_strong_guarantee (fun _ => false) id (⟨⟨[some 1]⟩, 1⟩ : Vector Nat)
      (⟨⟨[some 1]⟩, 1⟩ : Vector Nat) 3 0 5).1 rfl,
    (claim_C3_strong_guarantee (fun _ => false) id (⟨⟨[some 1]⟩, 1⟩ : Vector Nat)
      (⟨⟨[some 1]⟩, 1⟩ : Vector Nat) 3 0 5).2.1 rfl rfl,
    (claim_C3_strong_guarantee (fun _ => false) id (⟨⟨[some 1]⟩, 1⟩ : Vector Nat)
      (⟨⟨[some 1]⟩, 1⟩ : Vector Nat) 3 0 5).2.2 rfl rfl⟩

/-! ## Claim C9: heap-level model for copy independence -/

/-- A heap of allocated buffers, addressed by index.  operator new
always returns storage disjoint from every live allocation, modelled by
appending a fresh buffer at the end. -/
abbrev Heap (α : Type) := List (List (Option α))

/-- A vector whose storage lives in a heap: the address of its RawMemory
buffer and its logical size; its capacity is the length of the buffer at
that address. -/
structure HVector where
  addr : Nat
  size_ : Nat

/-- The slot buffer owned by a heap-resident vector. -/
def hbuf (h : Heap α) (v : HVector) : List (Option α) := List.getD h v.addr []

/-- The value-level Vector denoted by a heap-resident vector. -/
def toVec (h : Heap α) (v : HVector) : Vector α := ⟨⟨hbuf h v⟩, v.size_⟩

/-- The live element values of a heap-resident vector. -/
def hlive (h : Heap α) (v : HVector) : List α := (toVec h v).live

/-- The mutating operations a caller can apply to one vector; each takes
only that vector and plain values.  setAt i x is the write v[i] = x
through the unchecked operator[]. -/
inductive Mut (α : Type) where
  | emplaceAt (mv : α → α) (pos : Nat) (x : α)
  | eraseAt (mv : α → α) (pos : Nat)
  | pushBack (mv : α → α) (x : α)
  | popBack
  | reserve (c : Nat)
  | resize (c : Nat) (d : α)
  | setAt (i : Nat) (x : α)

/-- The value-level effect of one mutation, given by the member
functions modelled above. -/
def mutVec : Mut α → Vector α → Vector α
  | .emplaceAt mv pos x, w => (Vector.Emplace mv w pos x).1
  | .eraseAt mv pos, w => (Vector.Erase mv w pos).1
  | .pushBack mv x, w => Vector.PushBack mv w x
  | .popBack, w => Vector.PopBack w
  | .reserve c, w => w.Reserve c
  | .resize c d, w => Vector.Resize w c d
  | .setAt i x, w => ⟨⟨w.data_.buffer_.set i (some x)⟩, w.size_⟩

/-- Whether the mutation takes a branch of the source that allocates a
new RawMemory and swaps it in (reallocating Emplace and PushBack,
growing Reserve and Resize). -/
def mutReallocates : Mut α → Vector α → Bool
  | .emplaceAt _ _ _, w => w.size_ == w.Capacity
  | .pushBack _ _, w => w.size_ == w.Capacity
  | .reserve c, w => decide (w.Capacity < c)
  | .resize c _, w => decide (w.Capacity < c)
  | _, _ => false

/-- Apply one mutation to a heap-resident vector.  An in-place mutation
writes the new buffer contents through the vector's own address; a
reallocating mutation puts the new buffer at a fresh address and the old
allocation is freed (its cell is never read through this vector again). -/
def applyMut (m : Mut α) (h : Heap α) (v : HVector) : Heap α × HVector :=
  let w' := mutVec m (toVec h v)
  if mutReallocates m (toVec h v) then
    (h ++ [w'.data_.buffer_], ⟨h.length, w'.size_⟩)
  else
    (h.set v.addr w'.data_.buffer_, ⟨v.addr, w'.size_⟩)

/-- The copy constructor at heap level: a fresh allocation receives the
copy built by the value-level copy constructor. -/
def copyCtorH (h : Heap α) (a : HVector) : Heap α × HVector :=
  (h ++ [(Vector.copyCtor (toVec h a)).data_.buffer_], ⟨h.length, a.size_⟩)

theorem getD_append_lt {β : Type u} (l₁ l₂ : List β) (n : Nat) (d : β)
    (hn : n < l₁.length) : (l₁ ++ l₂).getD n d = l₁.getD n d := by
  rw [List.getD_eq_getElem?_getD, List.getElem?_append, if_pos hn,
    ← List.getD_eq_getElem?_getD]

theorem getD_append_len {β : Type u} (l₁ : List β) (x d : β) :
    (l₁ ++ [x]).getD l₁.length d = x := by
  rw [List.getD_eq_getElem?_getD, List.getElem?_append, if_neg (by omega),
    Nat.sub_self]
  rfl

/-- Frame property: a mutation applied to one heap-resident vector never
writes through a different live address. -/
theorem hbuf_frame (m : Mut α) (h : Heap α) (v w : HVector)
    (hb : w.addr < h.length) (hne : w.addr ≠ v.addr) :
    hbuf (applyMut m h v).1 w = hbuf h w := by
  rw [applyMut]
  split_ifs with h1
  · exact getD_append_lt h _ w.addr [] hb
  · exact getD_set_ne h w.addr v.addr _ [] hne

/-- C9: copy construction yields a vector with the source's size,
capacity exactly that size, and equal element values, in fresh storage;
afterwards any mutation applied to the copy leaves the original's
buffer, hence its size, capacity and element values, unchanged, and any
mutation applied to the original leaves the copy unchanged. -/
theorem claim_C9_copy_independence (h : Heap α) (A : HVector)
    (hA : A.addr < h.length) (hsz : A.size_ ≤ (hbuf h A).length) :
    ((copyCtorH h A).2).size_ = A.size_ ∧
    (hbuf (copyCtorH h A).1 (copyCtorH h A).2).length = A.size_ ∧
    hlive (copyCtorH h A).1 (copyCtorH h A).2 = hlive (copyCtorH h A).1 A ∧
    (∀ m : Mut α,
      hlive (applyMut m (copyCtorH h A).1 (copyCtorH h A).2).1 A =
        hlive (copyCtorH h A).1 A ∧
      (hbuf (applyMut m (copyCtorH h A).1 (copyCtorH h A).2).1 A).length =
        (hbuf (copyCtorH h A).1 A).length) ∧
    (∀ m : Mut α,
      hlive (applyMut m (copyCtorH h A).1 A).1 (copyCtorH h A).2 =
        hlive (copyCtorH h A).1 (copyCtorH h A).2 ∧
      (hbuf (applyMut m (copyCtorH h A).1 A).1 (copyCtorH h A).2).length =
        (hbuf (copyCtorH h A).1 (copyCtorH h A).2).length) := by
  have hAbuf : hbuf (copyCtorH h A).1 A = hbuf h A := by
    rw [copyCtorH]
    exact getD_append_lt h _ A.addr [] hA
  have hseglen : (((hbuf h A).drop 0).take A.size_).length = A.size_ := by
    simp
    omega
  have hBbuf : hbuf (copyCtorH h A).1 (copyCtorH h A).2 = (hbuf h A).take A.size_ := by
    rw [copyCtorH, hbuf]
    rw [show ((h ++ [(Vector.copyCtor (toVec h A)).data_.buffer_],
        (⟨h.length, A.size_⟩ : HVector)).2).addr = h.length from rfl]
    rw [getD_append_len]
    simp only [Vector.copyCtor, toVec, uninitializedCopyN]
    rw [writeSeq_eq _ _ _ (by rw [List.length_replicate]; omega),
      List.take_zero, List.nil_append, List.drop_zero,
      List.drop_eq_nil_of_le (by rw [List.length_replicate]; simp; omega),
      List.append_nil]
  refine ⟨rfl, ?_, ?_, ?_, ?_⟩
  · rw [hBbuf]
    simp
    omega
  · simp only [hlive, toVec, Vector.live]
    rw [hAbuf, hBbuf]
    rw [show ((copyCtorH h A).2).size_ = A.size_ from rfl, List.take_take,
      Nat.min_self]
  · intro m
    have hf := hbuf_frame m (copyCtorH h A).1 (copyCtorH h A).2 A
      (by rw [copyCtorH]; simp; omega)
      (by rw [show ((copyCtorH h A).2).addr = h.length from rfl]; omega)
    constructor
    · simp only [hlive, toVec, Vector.live]
      rw [hf]
    · rw [hf]
  · intro m
    have hf := hbuf_frame m (copyCtorH h A).1 A (copyCtorH h A).2
      (by rw [show ((copyCtorH h A).2).addr = h.length from rfl, copyCtorH]
          simp)
      (by rw [show ((copyCtorH h A).2).addr = h.length from rfl]; omega)
    constructor
    · simp only [hlive, toVec, Vector.live]
      rw [hf]
    · rw [hf]

/-- Witness for C9: a one-buffer heap holding the single-element vector
5 at address 0. -/
theorem claim_C9_copy_independence_witness :
    ((copyCtorH ([[some 5]] : Heap Nat) ⟨0, 1⟩).2).size_ = (⟨0, 1⟩ : HVector).size_ ∧
    (hbuf (copyCtorH ([[some 5]] : Heap Nat) ⟨0, 1⟩).1
        (copyCtorH ([[some 5]] : Heap Nat) ⟨0, 1⟩).2).length =
      (⟨0, 1⟩ : HVector).size_ ∧
    hlive (copyCtorH ([[some 5]] : Heap Nat) ⟨0, 1⟩).1
        (copyCtorH ([[some 5]] : Heap Nat) ⟨0, 1⟩).2 =
      hlive (copyCtorH ([[some 5]] : Heap Nat) ⟨0, 1⟩).1 ⟨0, 1⟩ ∧
    (∀ m : Mut Nat,
      hlive (applyMut m (copyCtorH ([[some 5]] : Heap Nat) ⟨0, 1⟩).1
          (copyCtorH ([[some 5]] : Heap Nat) ⟨0, 1⟩).2).1 ⟨0, 1⟩ =
        hlive (copyCtorH ([[some 5]] : Heap Nat) ⟨0, 1⟩).1 ⟨0, 1⟩ ∧
      (hbuf (applyMut m (copyCtorH ([[some 5]] : Heap Nat) ⟨0, 1⟩).1
          (copyCtorH ([[some 5]] : Heap Nat) ⟨0, 1⟩).2).1 ⟨0, 1⟩).length =
        (hbuf (copyCtorH ([[some 5]] : Heap Nat) ⟨0, 1⟩).1 ⟨0, 1⟩).length) ∧
    (∀ m : Mut Nat,
      hlive (applyMut m (copyCtorH ([[some 5]] : Heap Nat) ⟨0, 1⟩).1 ⟨0, 1⟩).1
          (copyCtorH ([[some 5]] : Heap Nat) ⟨0, 1⟩).2 =
        hlive (copyCtorH ([[some 5]] : Heap Nat) ⟨0, 1⟩).1
          (copyCtorH ([[some 5]] : Heap Nat) ⟨0, 1⟩).2 ∧
      (hbuf (applyMut m (copyCtorH ([[some 5]] : Heap Nat) ⟨0, 1⟩).1 ⟨0, 1⟩).1
          (copyCtorH ([[some 5]] : Heap Nat) ⟨0, 1⟩).2).length =
        (hbuf (copyCtorH ([[some 5]] : Heap Nat) ⟨0, 1⟩).1
          (copyCtorH ([[some 5]] : Heap Nat) ⟨0, 1⟩).2).length) :=
  claim_C9_copy_independence ([[some 5]] : Heap Nat) ⟨0, 1⟩ (by decide) (by decide)
